import Mathlib

/-!
Shallow embedding of the HTTP CONNECT proxy negotiator in
`src/proxy/http.c`, together with proofs checking the specification's
claims about it.  Byte buffers (`strbuf`, `bufchain`) are modelled as
`List Char`; machine integers appear as `Nat`/`Int` with explicit
`% 2 ^ 64` where the C type is `uintmax_t`/`size_t`.
-/

/-! ## Named characters (avoids scattering character literals) -/

def spaceChar : Char := Char.ofNat 32
def tabChar : Char := Char.ofNat 9
def nlChar : Char := Char.ofNat 10
def crChar : Char := Char.ofNat 13
def colonChar : Char := Char.ofNat 58
def dotChar : Char := Char.ofNat 46
def minusChar : Char := Char.ofNat 45
def plusChar : Char := Char.ofNat 43
def quoteChar : Char := Char.ofNat 39
def eqChar : Char := Char.ofNat 61

/-! ## Character classes

`is_whitespace` and `is_separator` are the functions of those names in
`src/proxy/http.c`; `is_space` is C `isspace` (used by `sscanf` %d and
`strtoumax`); `is_digit` is C `isdigit`. -/

def is_whitespace (c : Char) : Bool :=
  c == spaceChar || c == tabChar || c == nlChar

def is_separator (c : Char) : Bool :=
  c == Char.ofNat 40 || c == Char.ofNat 41 || c == Char.ofNat 60 ||
  c == Char.ofNat 62 || c == Char.ofNat 64 || c == Char.ofNat 44 ||
  c == Char.ofNat 59 || c == colonChar || c == Char.ofNat 92 ||
  c == Char.ofNat 34 || c == Char.ofNat 47 || c == Char.ofNat 91 ||
  c == Char.ofNat 93 || c == Char.ofNat 63 || c == eqChar ||
  c == Char.ofNat 123 || c == Char.ofNat 125

def is_space (c : Char) : Bool :=
  decide (c.toNat = 32 ∨ c.toNat = 9 ∨ c.toNat = 10 ∨ c.toNat = 13 ∨
          c.toNat = 11 ∨ c.toNat = 12)

def is_digit (c : Char) : Bool :=
  decide (48 ≤ c.toNat ∧ c.toNat ≤ 57)

/-- ASCII lower-casing, as C `tolower` in the default locale. -/
def to_lower (c : Char) : Char :=
  if 65 ≤ c.toNat ∧ c.toNat ≤ 90 then Char.ofNat (c.toNat + 32) else c

/-- C `stricmp(a, b) == 0`: case-insensitive equality. -/
def stricmpEq (a b : List Char) : Bool :=
  a.map to_lower == b.map to_lower

/-! ## `read_line` (src/proxy/http.c lines 10-42)

The C loop peeks one byte at a time (`bufchain_try_fetch` does not
consume).  The loop is modelled with explicit fuel: `none` means the
fuel ran out, which on this loop happens exactly when the C code fails
to terminate, since each C iteration is one fuel step.  A result
`some (done, input2, output2)` gives the flag returned by `read_line`
together with the remaining input and the accumulated `output` strbuf. -/

def readLineLoop : Nat → List Char → List Char → Bool → Option (Bool × List Char × List Char)
  | 0, _, _, _ => none
  | Nat.succ fuel, input, output, is_header =>
    match input with
    | [] => some (false, [], output)
    | c :: rest =>
      if is_header = true ∧ output.getLast? = some nlChar then
        if c ≠ spaceChar ∧ c ≠ tabChar then
          some (true, c :: rest, output)
        else
          readLineLoop fuel (c :: rest) output is_header
      else
        if is_header = false ∧ (output ++ c :: []).getLast? = some nlChar then
          some (true, rest, output ++ c :: [])
        else
          readLineLoop fuel rest (output ++ c :: []) is_header

/-- `strbuf_chomp`: remove one trailing `c` if present. -/
def strbuf_chomp (buf : List Char) (c : Char) : List Char :=
  if buf.getLast? = some c then buf.dropLast else buf

def read_line (fuel : Nat) (input output : List Char) (is_header : Bool) :
    Option (Bool × List Char × List Char) :=
  match readLineLoop fuel input output is_header with
  | none => none
  | some (false, input2, output2) => some (false, input2, output2)
  | some (true, input2, output2) =>
      some (true, input2, strbuf_chomp (strbuf_chomp output2 nlChar) crChar)

/-! ## Helper lemmas about the folding loop -/

lemma readLineLoop_fold_stuck (c : Char) (hc : c = spaceChar ∨ c = tabChar) :
    ∀ (fuel : Nat) (rest out : List Char),
      readLineLoop fuel (c :: rest) (out ++ nlChar :: []) true = none := by
  intro fuel
  induction fuel with
  | zero => intro rest out; rfl
  | succ n ih =>
      intro rest out
      have hlast : (out ++ nlChar :: []).getLast? = some nlChar := by
        simp [List.getLast?_concat]
      have hguard : ¬ (c ≠ spaceChar ∧ c ≠ tabChar) := by
        rcases hc with h | h <;> simp [h]
      simp only [readLineLoop, hlast, if_pos (And.intro rfl hlast), if_neg hguard]
      exact ih rest out

/-! ## Header tokenizer (src/proxy/http.c lines 113-151)

`s->header_pos` only ever moves forward, so the position is modelled by
passing the unconsumed suffix of the header line.  `get_token` returns
the token together with the suffix after it; `get_separator` returns
the suffix after the separator. -/

def dropWhitespace : List Char → List Char
  | [] => []
  | c :: cs => if is_whitespace c then dropWhitespace cs else c :: cs

def tokenChar (c : Char) : Bool :=
  !(is_whitespace c) && !(is_separator c)

def get_token (header : List Char) : Option (List Char × List Char) :=
  match dropWhitespace header with
  | [] => none
  | c :: cs =>
      if is_separator c then none
      else some ((c :: cs).takeWhile tokenChar, (c :: cs).dropWhile tokenChar)

def get_separator (header : List Char) (sep : Char) : Option (List Char) :=
  match dropWhitespace header with
  | [] => none
  | c :: cs => if c = sep then some cs else none

/-! ## `strtoumax(tok, NULL, 10)` (used at src/proxy/http.c line 271)

Skips `isspace` characters, accepts one optional sign, converts the
longest leading run of decimal digits (saturating at `UINTMAX_MAX`,
i.e. `2 ^ 64 - 1`), negating modulo `2 ^ 64` after a minus sign;
returns 0 when no digits are present. -/

def digitsToNat (ds : List Char) : Nat :=
  ds.foldl (fun a c => a * 10 + (c.toNat - 48)) 0

def strtoRest (l : List Char) (neg : Bool) : Nat :=
  let t := l.takeWhile is_digit
  if t.isEmpty then 0
  else
    let v := min (digitsToNat t) (2 ^ 64 - 1)
    if neg then (2 ^ 64 - v) % 2 ^ 64 else v

def strtoumax10 (s : List Char) : Nat :=
  match s.dropWhile is_space with
  | [] => 0
  | c :: r =>
      if c = minusChar then strtoRest r true
      else if c = plusChar then strtoRest r false
      else strtoRest (c :: r) false

/-! ## Header-line processing (src/proxy/http.c lines 244-292)

One iteration of the header `do`-`while` body, applied to a completed
logical header line.  `content_length` and `connection_close` are the
fields of `HttpProxyNegotiator` this code touches. -/

inductive HttpHeader where
  | HDR_CONNECTION
  | HDR_CONTENT_LENGTH
  | HDR_PROXY_AUTHENTICATE
  | HDR_UNKNOWN
deriving DecidableEq

structure HdrState where
  content_length : Nat
  connection_close : Bool
deriving DecidableEq

def sConnection : List Char := ("Connection").toList
def sContentLength : List Char := ("Content-Length").toList
def sProxyAuthenticate : List Char := ("Proxy-Authenticate").toList
def sBasic : List Char := ("Basic").toList
def sClose : List Char := ("close").toList
def sKeepAlive : List Char := ("keep-alive").toList

def msgUnsupported (scheme : List Char) : List Char :=
  ("HTTP proxy asked for unsupported authentication type ").toList ++
  quoteChar :: (scheme ++ quoteChar :: [])

inductive HeaderResult where
  | ok (st : HdrState)
  | unsupportedAuth (scheme : List Char)
deriving DecidableEq

def process_header (st : HdrState) (header : List Char) : HeaderResult :=
  match get_token header with
  | none => .ok st
  | some (tok, rest) =>
    let hdr : HttpHeader :=
      if stricmpEq tok sConnection then .HDR_CONNECTION
      else if stricmpEq tok sContentLength then .HDR_CONTENT_LENGTH
      else if stricmpEq tok sProxyAuthenticate then .HDR_PROXY_AUTHENTICATE
      else .HDR_UNKNOWN
    match get_separator rest colonChar with
    | none => .ok st
    | some rest2 =>
      if hdr = .HDR_CONTENT_LENGTH then
        match get_token rest2 with
        | none => .ok st
        | some (tok2, _) => .ok { st with content_length := strtoumax10 tok2 }
      else if hdr = .HDR_CONNECTION then
        match get_token rest2 with
        | none => .ok st
        | some (tok2, _) =>
          if stricmpEq tok2 sClose then .ok { st with connection_close := true }
          else if stricmpEq tok2 sKeepAlive then .ok { st with connection_close := false }
          else .ok st
      else if hdr = .HDR_PROXY_AUTHENTICATE then
        match get_token rest2 with
        | none => .ok st
        | some (tok2, _) =>
          if stricmpEq tok2 sBasic then .ok st
          else .unsupportedAuth tok2
      else .ok st

/-- The header `do`-`while` loop over the successive completed logical
header lines (the terminating empty line excluded): stops early with
the fatal message when an unsupported auth scheme appears. -/
def process_headers (st : HdrState) : List (List Char) → Except (List Char) HdrState
  | [] => .ok st
  | line :: rest =>
    match process_header st line with
    | .ok st2 => process_headers st2 rest
    | .unsupportedAuth scheme => .error (msgUnsupported scheme)

/-! ## Status-line parse (src/proxy/http.c lines 224-239)

`sscanf(s->response->s, "HTTP/%d.%d %n%d", ...)`: ordinary characters
match exactly; a white-space directive skips zero or more `isspace`
characters; `%d` skips `isspace`, then an optional sign and a
non-empty longest run of digits; `%n` records how many characters have
been consumed so far.  The negotiator only tests `n_scanned < 3`, so
the model returns `some (maj_ver, min_ver, http_status_pos,
http_status)` when all three `%d` conversions succeed and `none`
otherwise. -/

def scanDigits (l : List Char) (neg : Bool) : Option (Int × List Char) :=
  let t := l.takeWhile is_digit
  if t.isEmpty then none
  else
    some (if neg then -(digitsToNat t : Int) else (digitsToNat t : Int),
          l.dropWhile is_digit)

def scanInt (l : List Char) : Option (Int × List Char) :=
  match l.dropWhile is_space with
  | [] => none
  | c :: r =>
      if c = minusChar then scanDigits r true
      else if c = plusChar then scanDigits r false
      else scanDigits (c :: r) false

def expectChars : List Char → List Char → Option (List Char)
  | [], l => some l
  | _ :: _, [] => none
  | c :: cs, x :: xs => if x = c then expectChars cs xs else none

def sHTTPslash : List Char := ("HTTP/").toList

def parse_status_line (resp : List Char) : Option (Int × Int × Nat × Int) :=
  match expectChars sHTTPslash resp with
  | none => none
  | some l1 =>
    match scanInt l1 with
    | none => none
    | some (maj_ver, l2) =>
      match expectChars (dotChar :: []) l2 with
      | none => none
      | some l3 =>
        match scanInt l3 with
        | none => none
        | some (min_ver, l4) =>
          let l5 := l4.dropWhile is_space
          let http_status_pos := resp.length - l5.length
          match scanInt l5 with
          | none => none
          | some (http_status, _) =>
              some (maj_ver, min_ver, http_status_pos, http_status)

/-- src/proxy/http.c lines 235-238: the default for `connection_close`
computed from the parsed protocol version, exactly as written:
`maj_ver < 1 && (maj_ver == 1 && min_ver < 1)`. -/
def connection_close_default (maj_ver min_ver : Int) : Bool :=
  if maj_ver < 1 ∧ (maj_ver = 1 ∧ min_ver < 1) then true else false

/-! ## Base64 (src/proxy/http.c lines 190-202)

Modelled from the spec: `base64_encode_atom` is not under `src/`; §4.3
of the spec describes it — standard alphabet, 3-byte groups, and a
final group of 1 or 2 bytes padded with `=` to 4 output characters. -/

def b64alphabet : List Char :=
  ("ABCDEFGHIJKLMNOPQRSTUVWXYZabcdefghijklmnopqrstuvwxyz0123456789+/").toList

def b64digit (n : Nat) : Char := b64alphabet.getD n eqChar

def base64_encode_atom (data : List Nat) : List Char :=
  let n := data.length
  let word := (data.getD 0 0) % 256 * 65536 + (data.getD 1 0) % 256 * 256 +
              (data.getD 2 0) % 256
  (b64digit (word / 262144 % 64)) ::
  (b64digit (word / 4096 % 64)) ::
  (if n < 2 then eqChar else b64digit (word / 64 % 64)) ::
  (if n < 3 then eqChar else b64digit (word % 64)) :: []

/-- The encoding loop at src/proxy/http.c lines 196-200: one atom per
3-byte group of the input. -/
def base64_encode : List Nat → List Char
  | [] => []
  | a :: [] => base64_encode_atom (a :: [])
  | a :: b :: [] => base64_encode_atom (a :: b :: [])
  | a :: b :: c :: rest => base64_encode_atom (a :: b :: c :: []) ++ base64_encode rest

/-! ## Request emission (src/proxy/http.c lines 167-213)

`ConnState` holds the `HttpProxyNegotiator` fields that persist across
round trips.  `emit_request` covers one execution of the request-
building prefix of the `while (true)` body, returning the bytes
appended to `pn->output` and the updated state. -/

structure ConnState where
  tried_no_auth : Bool
  try_auth_from_conf : Bool
  username : List Char
  password : List Char
deriving DecidableEq

/-- src/proxy/http.c lines 162-165: seed credentials from the Conf and
set `try_auth_from_conf` exactly when either is non-empty. -/
def init_state (conf_username conf_password : List Char) : ConnState :=
  { tried_no_auth := false,
    try_auth_from_conf := conf_username.length != 0 || conf_password.length != 0,
    username := conf_username,
    password := conf_password }

def natToChars (n : Nat) : List Char := Nat.toDigits 10 n

def crlf : List Char := crChar :: nlChar :: []

def sCONNECT : List Char := ("CONNECT ").toList
def sHTTP11 : List Char := (" HTTP/1.1").toList
def sHost : List Char := ("Host: ").toList
def sProxyAuthBasic : List Char := ("Proxy-Authorization: Basic ").toList

/-- The `put_fmt` at lines 174-177: `CONNECT %s:%d HTTP/1.1\r\nHost:
%s:%d\r\n`. -/
def request_head (dest : List Char) (port : Nat) : List Char :=
  sCONNECT ++ dest ++ colonChar :: natToChars port ++ sHTTP11 ++ crlf ++
  sHost ++ dest ++ colonChar :: natToChars port ++ crlf

/-- Lines 188-203: the `Proxy-Authorization` header line, built from
`username || ':' || password` base64-encoded. -/
def auth_line (username password : List Char) : List Char :=
  sProxyAuthBasic ++
  base64_encode ((username ++ colonChar :: password).map Char.toNat) ++ crlf

def emit_request (st : ConnState) (dest : List Char) (port : Nat) :
    List Char × ConnState :=
  if st.tried_no_auth then
    if st.username.length ≠ 0 ∨ st.password.length ≠ 0 then
      (request_head dest port ++ auth_line st.username st.password ++ crlf, st)
    else
      (request_head dest port ++ crlf, st)
  else
    (request_head dest port ++ crlf, { st with tried_no_auth := true })

/-! ## Post-response decision (src/proxy/http.c lines 298-379)

After the header section and the `content_length`-byte body have been
consumed, the status code is dispatched.  `RoundOutcome.retry` is the
`continue` at line 314 (loop back and resend the request);
`RoundOutcome.prompt` is the interactive path of lines 327-346,
carrying the prompts that `add_prompt` builds (`echo = false` means the
field is masked). -/

structure Prompt where
  label : List Char
  echo : Bool
deriving DecidableEq

def sPromptUser : List Char := ("Proxy username: ").toList
def sPromptPass : List Char := ("Proxy password: ").toList

/-- Lines 338-346: prompt for the username only when it is empty; the
password prompt is always present and masked. -/
def build_prompts (username : List Char) : List Prompt :=
  (if username.length = 0 then (Prompt.mk sPromptUser true) :: [] else []) ++
  (Prompt.mk sPromptPass false) :: []

def msgMalformed : List Char := ("HTTP response was absent or malformed").toList

def msgClosedAfterAuth : List Char :=
  ("HTTP proxy closed connection after asking for authentication").toList

def msgNoAuth : List Char :=
  ("HTTP proxy requested authentication which we do not have").toList

def msgHTTPresp : List Char := ("HTTP response ").toList

inductive RoundOutcome where
  | success
  | fatalError (msg : List Char)
  | retry
  | prompt (prompts : List Prompt)
deriving DecidableEq

def decide_status (http_status : Int) (resp : List Char) (http_status_pos : Nat)
    (connection_close : Bool) (st : ConnState) (has_itr : Bool) :
    RoundOutcome × ConnState :=
  if 200 ≤ http_status ∧ http_status < 300 then
    (.success, st)
  else if http_status = 407 then
    if connection_close then
      (.fatalError msgClosedAfterAuth, st)
    else if st.try_auth_from_conf then
      (.retry, { st with try_auth_from_conf := false })
    else if has_itr = false then
      (.fatalError msgNoAuth, st)
    else
      (.prompt (build_prompts st.username), st)
  else
    (.fatalError (msgHTTPresp ++ resp.drop http_status_pos), st)

/-- One full round trip (lines 215-379) applied to the completed
status line and the completed logical header lines of one response
(the body bytes carry no information: they are discarded). -/
def run_round (st : ConnState) (has_itr : Bool) (statusLine : List Char)
    (headerLines : List (List Char)) : RoundOutcome × ConnState :=
  match parse_status_line statusLine with
  | none => (.fatalError msgMalformed, st)
  | some (maj_ver, min_ver, http_status_pos, http_status) =>
    let close0 := connection_close_default maj_ver min_ver
    match process_headers (HdrState.mk 0 close0) headerLines with
    | .error msg => (.fatalError msg, st)
    | .ok hst =>
        decide_status http_status statusLine http_status_pos
          hst.connection_close st has_itr

/-! ## Retry accounting across a negotiation

`try_auth_from_conf` is assigned exactly twice in the source: set at
lines 162-165 (initialisation) and cleared at line 313 (the automatic
retry).  A negotiation is a sequence of 407 decisions threaded through
the state; `run_rounds407` over-approximates it (a real negotiation
stops at the first fatal outcome, which can only remove decisions). -/

structure Event407 where
  close : Bool
  has_itr : Bool
deriving DecidableEq

def run_rounds407 (st : ConnState) : List Event407 → List RoundOutcome
  | [] => []
  | e :: es =>
    let r := decide_status 407 [] 0 e.close st e.has_itr
    r.1 :: run_rounds407 r.2 es

def countRetries (outs : List RoundOutcome) : Nat :=
  (outs.filter (fun o => o == RoundOutcome.retry)).length

/-! ## List and character-class helper lemmas -/

lemma takeWhile_append_all (p : Char → Bool) :
    ∀ (t r : List Char), (∀ c ∈ t, p c = true) →
      (t ++ r).takeWhile p = t ++ r.takeWhile p := by
  intro t
  induction t with
  | nil => intro r _; simp
  | cons c t ih =>
      intro r h
      have hc : p c = true := h c (List.mem_cons_self c t)
      simp [List.takeWhile, hc, ih r (fun x hx => h x (List.mem_cons_of_mem c hx))]

lemma dropWhile_append_all (p : Char → Bool) :
    ∀ (t r : List Char), (∀ c ∈ t, p c = true) →
      (t ++ r).dropWhile p = r.dropWhile p := by
  intro t
  induction t with
  | nil => intro r _; simp
  | cons c t ih =>
      intro r h
      have hc : p c = true := h c (List.mem_cons_self c t)
      simp [List.dropWhile, hc, ih r (fun x hx => h x (List.mem_cons_of_mem c hx))]

lemma takeWhile_nil_of_head (p : Char → Bool) (r : List Char)
    (h : ∀ c, r.head? = some c → p c = false) : r.takeWhile p = [] := by
  cases r with
  | nil => rfl
  | cons c cs => simp [List.takeWhile, h c rfl]

lemma dropWhile_self_of_head (p : Char → Bool) (r : List Char)
    (h : ∀ c, r.head? = some c → p c = false) : r.dropWhile p = r := by
  cases r with
  | nil => rfl
  | cons c cs => simp [List.dropWhile, h c rfl]

lemma takeWhile_ne_nil_of_head (p : Char → Bool) (c : Char) (cs : List Char)
    (h : p c = true) : (c :: cs).takeWhile p ≠ [] := by
  simp [List.takeWhile, h]

lemma head_dropWhile_not (p : Char → Bool) :
    ∀ (l : List Char) (c : Char), (l.dropWhile p).head? = some c → p c = false := by
  intro l
  induction l with
  | nil => intro c h; simp [List.dropWhile] at h
  | cons x xs ih =>
      intro c h
      by_cases hx : p x = true
      · exact ih c (by simpa [List.dropWhile, hx] using h)
      · have hx2 : p x = false := by simpa using hx
        simp [List.dropWhile, hx2] at h
        exact h ▸ hx2

lemma dropWhitespace_eq (l : List Char) :
    dropWhitespace l = l.dropWhile is_whitespace := by
  induction l with
  | nil => rfl
  | cons c cs ih =>
      by_cases hc : is_whitespace c = true
      · simp [dropWhitespace, List.dropWhile, hc, ih]
      · have hc2 : is_whitespace c = false := by simpa using hc
        simp [dropWhitespace, List.dropWhile, hc2]

lemma is_whitespace_of_tokenChar (c : Char) (h : tokenChar c = true) :
    is_whitespace c = false := by
  by_cases hw : is_whitespace c = true
  · simp [tokenChar, hw] at h
  · simpa using hw

lemma is_separator_of_tokenChar (c : Char) (h : tokenChar c = true) :
    is_separator c = false := by
  by_cases hs : is_separator c = true
  · simp [tokenChar, hs] at h
  · simpa using hs

lemma is_digit_not_space (c : Char) (h : is_digit c = true) : is_space c = false := by
  simp only [is_digit, decide_eq_true_eq] at h
  simp only [is_space, decide_eq_false_iff_not]
  omega

lemma is_space_not_digit (c : Char) (h : is_space c = true) : is_digit c = false := by
  simp only [is_space, decide_eq_true_eq] at h
  simp only [is_digit, decide_eq_false_iff_not]
  omega

lemma is_digit_ne_minus (c : Char) (h : is_digit c = true) : ¬ (c = minusChar) := by
  intro he
  rw [he] at h
  exact absurd h (by decide)

lemma is_digit_ne_plus (c : Char) (h : is_digit c = true) : ¬ (c = plusChar) := by
  intro he
  rw [he] at h
  exact absurd h (by decide)

lemma takeWhile_all (p : Char → Bool) (l : List Char) (h : ∀ c ∈ l, p c = true) :
    l.takeWhile p = l := by
  have h2 := takeWhile_append_all p l [] h
  simpa using h2

lemma dropWhile_all (p : Char → Bool) (l : List Char) (h : ∀ c ∈ l, p c = true) :
    l.dropWhile p = [] := by
  have h2 := dropWhile_append_all p l [] h
  simpa using h2

/-! ## Tokenizer shape lemmas -/

lemma get_token_shape (t r : List Char) (ht : t ≠ [])
    (htok : ∀ c ∈ t, tokenChar c = true)
    (hr : ∀ c, r.head? = some c → tokenChar c = false) :
    get_token (t ++ r) = some (t, r) := by
  cases t with
  | nil => exact absurd rfl ht
  | cons c t2 =>
      have hc : tokenChar c = true := htok c (List.mem_cons_self c t2)
      have hcw : is_whitespace c = false := is_whitespace_of_tokenChar c hc
      have hcs : is_separator c = false := is_separator_of_tokenChar c hc
      have hdw : dropWhitespace (c :: (t2 ++ r)) = c :: (t2 ++ r) := by
        simp [dropWhitespace, hcw]
      have htk : (c :: (t2 ++ r)).takeWhile tokenChar = (c :: t2) ++ r.takeWhile tokenChar := by
        have h2 := takeWhile_append_all tokenChar (c :: t2) r htok
        simpa using h2
      have hdp : (c :: (t2 ++ r)).dropWhile tokenChar = r.dropWhile tokenChar := by
        have h2 := dropWhile_append_all tokenChar (c :: t2) r htok
        simpa using h2
      have hrt : r.takeWhile tokenChar = [] := takeWhile_nil_of_head tokenChar r hr
      have hrd : r.dropWhile tokenChar = r := dropWhile_self_of_head tokenChar r hr
      simp [get_token, hdw, hcs, htk, hdp, hrt, hrd]

lemma get_token_ws_tok (w v : List Char) (hw : ∀ c ∈ w, is_whitespace c = true)
    (hv : v ≠ []) (hvc : ∀ c ∈ v, tokenChar c = true) :
    get_token (w ++ v) = some (v, []) := by
  cases v with
  | nil => exact absurd rfl hv
  | cons a as =>
      have ha : tokenChar a = true := hvc a (List.mem_cons_self a as)
      have haw : is_whitespace a = false := is_whitespace_of_tokenChar a ha
      have has : is_separator a = false := is_separator_of_tokenChar a ha
      have hdv : dropWhitespace (w ++ a :: as) = a :: as := by
        rw [dropWhitespace_eq, dropWhile_append_all is_whitespace w (a :: as) hw]
        simp [List.dropWhile, haw]
      have htk : (a :: as).takeWhile tokenChar = a :: as :=
        takeWhile_all tokenChar (a :: as) hvc
      have hdp : (a :: as).dropWhile tokenChar = [] :=
        dropWhile_all tokenChar (a :: as) hvc
      simp [get_token, hdv, has, htk, hdp]

lemma get_separator_colon (v : List Char) :
    get_separator (colonChar :: v) colonChar = some v := by
  have h : is_whitespace colonChar = false := by decide
  simp [get_separator, dropWhitespace, h]

lemma ws_singleton_space : ∀ c ∈ spaceChar :: ([] : List Char), is_whitespace c = true := by
  intro c hc
  simp at hc
  rw [hc]
  decide

lemma process_header_proxy_auth (st : HdrState) (v : List Char) (hv : v ≠ [])
    (hvc : ∀ c ∈ v, tokenChar c = true) :
    process_header st (sProxyAuthenticate ++ colonChar :: spaceChar :: v) =
      if stricmpEq v sBasic then .ok st else .unsupportedAuth v := by
  have h1 : get_token (sProxyAuthenticate ++ colonChar :: spaceChar :: v) =
      some (sProxyAuthenticate, colonChar :: spaceChar :: v) := by
    refine get_token_shape sProxyAuthenticate (colonChar :: spaceChar :: v)
      (by decide) (by decide) ?_
    intro c hc
    simp at hc
    rw [← hc]
    decide
  have h2 : get_separator (colonChar :: spaceChar :: v) colonChar =
      some (spaceChar :: v) := get_separator_colon (spaceChar :: v)
  have h3 : get_token (spaceChar :: ([] : List Char) ++ v) = some (v, []) :=
    get_token_ws_tok (spaceChar :: []) v ws_singleton_space hv hvc
  have e1 : stricmpEq sProxyAuthenticate sConnection = false := by decide
  have e2 : stricmpEq sProxyAuthenticate sContentLength = false := by decide
  have e3 : stricmpEq sProxyAuthenticate sProxyAuthenticate = true := by decide
  simp only [List.cons_append, List.nil_append] at h3
  simp [process_header, h1, h2, h3, e1, e2, e3]

lemma process_header_content_length (st : HdrState) (v : List Char) (hv : v ≠ [])
    (hvc : ∀ c ∈ v, tokenChar c = true) :
    process_header st (sContentLength ++ colonChar :: spaceChar :: v) =
      .ok { st with content_length := strtoumax10 v } := by
  have h1 : get_token (sContentLength ++ colonChar :: spaceChar :: v) =
      some (sContentLength, colonChar :: spaceChar :: v) := by
    refine get_token_shape sContentLength (colonChar :: spaceChar :: v)
      (by decide) (by decide) ?_
    intro c hc
    simp at hc
    rw [← hc]
    decide
  have h2 : get_separator (colonChar :: spaceChar :: v) colonChar =
      some (spaceChar :: v) := get_separator_colon (spaceChar :: v)
  have h3 : get_token (spaceChar :: ([] : List Char) ++ v) = some (v, []) :=
    get_token_ws_tok (spaceChar :: []) v ws_singleton_space hv hvc
  have e1 : stricmpEq sContentLength sConnection = false := by decide
  have e2 : stricmpEq sContentLength sContentLength = true := by decide
  simp only [List.cons_append, List.nil_append] at h3
  simp [process_header, h1, h2, h3, e1, e2]

/-! ## Shape predicates and `scanInt` lemmas -/

def allWs (l : List Char) : Prop := ∀ c ∈ l, is_space c = true

def allDigits (l : List Char) : Prop := ∀ c ∈ l, is_digit c = true

def signOpt (g : List Char) : Prop :=
  g = [] ∨ g = minusChar :: [] ∨ g = plusChar :: []

def headNotDigit (l : List Char) : Prop :=
  ∀ c, l.head? = some c → is_digit c = false

lemma headNotDigit_of_allWs_cons (c : Char) (cs : List Char)
    (h : is_space c = true) : headNotDigit (c :: cs) := by
  intro x hx
  simp at hx
  rw [← hx]
  exact is_space_not_digit c h

lemma scanDigits_some_decomp (l : List Char) (neg : Bool) (v : Int) (r : List Char)
    (h : scanDigits l neg = some (v, r)) :
    ∃ d, l = d ++ r ∧ allDigits d ∧ d ≠ [] ∧ headNotDigit r := by
  unfold scanDigits at h
  by_cases ht : (l.takeWhile is_digit).isEmpty = true
  · rw [if_pos ht] at h
    exact absurd h (by simp)
  · rw [if_neg ht] at h
    rw [Option.some.injEq, Prod.mk.injEq] at h
    obtain ⟨_, h2⟩ := h
    refine ⟨l.takeWhile is_digit, ?_, ?_, ?_, ?_⟩
    · rw [← h2]
      exact (List.takeWhile_append_dropWhile is_digit l).symm
    · intro c hc
      exact List.mem_takeWhile_imp hc
    · simpa [List.isEmpty_iff] using ht
    · rw [← h2]
      intro c hc
      exact head_dropWhile_not is_digit l c hc

lemma scanInt_cons_eval (l : List Char) (c : Char) (cs : List Char)
    (hdw : l.dropWhile is_space = c :: cs) :
    scanInt l = if c = minusChar then scanDigits cs true
                else if c = plusChar then scanDigits cs false
                else scanDigits (c :: cs) false := by
  unfold scanInt
  rw [hdw]

lemma scanInt_some_decomp (l : List Char) (v : Int) (r : List Char)
    (h : scanInt l = some (v, r)) :
    ∃ w g d, l = w ++ (g ++ (d ++ r)) ∧ allWs w ∧ signOpt g ∧ allDigits d ∧
      d ≠ [] ∧ headNotDigit r := by
  have hsplit : l = l.takeWhile is_space ++ l.dropWhile is_space :=
    (List.takeWhile_append_dropWhile is_space l).symm
  have hw : allWs (l.takeWhile is_space) := fun c hc => List.mem_takeWhile_imp hc
  cases hd : l.dropWhile is_space with
  | nil =>
      unfold scanInt at h
      rw [hd] at h
      exact absurd h (by simp)
  | cons c cs =>
      rw [scanInt_cons_eval l c cs hd] at h
      by_cases hm : c = minusChar
      · rw [if_pos hm] at h
        obtain ⟨d, hd2, hdd, hdn, hr⟩ := scanDigits_some_decomp cs true v r h
        refine ⟨l.takeWhile is_space, minusChar :: [], d, ?_, hw,
          Or.inr (Or.inl rfl), hdd, hdn, hr⟩
        nth_rewrite 1 [hsplit]
        rw [hd, hm, hd2]
        simp
      · rw [if_neg hm] at h
        by_cases hp : c = plusChar
        · rw [if_pos hp] at h
          obtain ⟨d, hd2, hdd, hdn, hr⟩ := scanDigits_some_decomp cs false v r h
          refine ⟨l.takeWhile is_space, plusChar :: [], d, ?_, hw,
            Or.inr (Or.inr rfl), hdd, hdn, hr⟩
          nth_rewrite 1 [hsplit]
          rw [hd, hp, hd2]
          simp
        · rw [if_neg hp] at h
          obtain ⟨d, hd2, hdd, hdn, hr⟩ := scanDigits_some_decomp (c :: cs) false v r h
          refine ⟨l.takeWhile is_space, [], d, ?_, hw, Or.inl rfl, hdd, hdn, hr⟩
          nth_rewrite 1 [hsplit]
          rw [hd, hd2]
          simp

lemma scanDigits_shape (d r : List Char) (neg : Bool) (hd : allDigits d)
    (hd0 : d ≠ []) (hr : headNotDigit r) :
    ∃ v, scanDigits (d ++ r) neg = some (v, r) := by
  have htk : (d ++ r).takeWhile is_digit = d := by
    rw [takeWhile_append_all is_digit d r hd,
        takeWhile_nil_of_head is_digit r hr, List.append_nil]
  have hdp : (d ++ r).dropWhile is_digit = r := by
    rw [dropWhile_append_all is_digit d r hd, dropWhile_self_of_head is_digit r hr]
  have hne : d.isEmpty = false := by
    cases d with
    | nil => exact absurd rfl hd0
    | cons a as => rfl
  refine ⟨if neg = true then -(digitsToNat d : Int) else (digitsToNat d : Int), ?_⟩
  simp [scanDigits, htk, hdp, hne]

lemma scanDigits_shape_some (d r : List Char) (neg : Bool) (hd : allDigits d)
    (hd0 : d ≠ []) :
    ∃ v r2, scanDigits (d ++ r) neg = some (v, r2) := by
  have hne : ((d ++ r).takeWhile is_digit).isEmpty = false := by
    cases d with
    | nil => exact absurd rfl hd0
    | cons a as =>
        have ha : is_digit a = true := hd a (List.mem_cons_self a as)
        simp [List.takeWhile, ha]
  refine ⟨if neg = true then -(digitsToNat ((d ++ r).takeWhile is_digit) : Int)
          else (digitsToNat ((d ++ r).takeWhile is_digit) : Int),
          (d ++ r).dropWhile is_digit, ?_⟩
  simp [scanDigits, hne]

lemma head_not_space_of_shape (g d : List Char) (r : List Char) (hg : signOpt g)
    (hd : allDigits d) (hd0 : d ≠ []) :
    ∀ c, (g ++ (d ++ r)).head? = some c → is_space c = false := by
  intro c hc
  rcases hg with h | h | h
  · subst h
    cases d with
    | nil => exact absurd rfl hd0
    | cons a as =>
        simp at hc
        rw [← hc]
        exact is_digit_not_space a (hd a (List.mem_cons_self a as))
  · subst h
    simp at hc
    rw [← hc]
    decide
  · subst h
    simp at hc
    rw [← hc]
    decide

lemma scanInt_shape (w g d r : List Char) (hw : allWs w) (hg : signOpt g)
    (hd : allDigits d) (hd0 : d ≠ []) (hr : headNotDigit r) :
    ∃ v, scanInt (w ++ (g ++ (d ++ r))) = some (v, r) := by
  have hdw : (w ++ (g ++ (d ++ r))).dropWhile is_space = g ++ (d ++ r) := by
    rw [dropWhile_append_all is_space w _ hw]
    exact dropWhile_self_of_head is_space _ (head_not_space_of_shape g d r hg hd hd0)
  rcases hg with h | h | h
  · subst h
    simp only [List.nil_append] at hdw
    cases d with
    | nil => exact absurd rfl hd0
    | cons a as =>
        have ha : is_digit a = true := hd a (List.mem_cons_self a as)
        have ham : ¬ (a = minusChar) := is_digit_ne_minus a ha
        have hap : ¬ (a = plusChar) := is_digit_ne_plus a ha
        obtain ⟨v, hv⟩ := scanDigits_shape (a :: as) r false hd hd0 hr
        refine ⟨v, ?_⟩
        have he := scanInt_cons_eval (w ++ ([] ++ (a :: as ++ r))) a (as ++ r)
          (by simpa using hdw)
        rw [he, if_neg ham, if_neg hap]
        simpa using hv
  · subst h
    obtain ⟨v, hv⟩ := scanDigits_shape d r true hd hd0 hr
    refine ⟨v, ?_⟩
    have he := scanInt_cons_eval (w ++ (minusChar :: [] ++ (d ++ r))) minusChar (d ++ r)
      (by simpa using hdw)
    rw [he, if_pos rfl]
    exact hv
  · subst h
    obtain ⟨v, hv⟩ := scanDigits_shape d r false hd hd0 hr
    refine ⟨v, ?_⟩
    have he := scanInt_cons_eval (w ++ (plusChar :: [] ++ (d ++ r))) plusChar (d ++ r)
      (by simpa using hdw)
    rw [he, if_neg (by decide), if_pos rfl]
    exact hv

lemma scanInt_shape_some (g d r : List Char) (hg : signOpt g)
    (hd : allDigits d) (hd0 : d ≠ []) :
    ∃ v r2, scanInt (g ++ (d ++ r)) = some (v, r2) := by
  have hdw : (g ++ (d ++ r)).dropWhile is_space = g ++ (d ++ r) :=
    dropWhile_self_of_head is_space _ (head_not_space_of_shape g d r hg hd hd0)
  rcases hg with h | h | h
  · subst h
    simp only [List.nil_append] at hdw
    cases d with
    | nil => exact absurd rfl hd0
    | cons a as =>
        have ha : is_digit a = true := hd a (List.mem_cons_self a as)
        have ham : ¬ (a = minusChar) := is_digit_ne_minus a ha
        have hap : ¬ (a = plusChar) := is_digit_ne_plus a ha
        obtain ⟨v, r2, hv⟩ := scanDigits_shape_some (a :: as) r false hd hd0
        refine ⟨v, r2, ?_⟩
        have he := scanInt_cons_eval (a :: as ++ r) a (as ++ r)
          (by simpa using hdw)
        rw [List.nil_append, he, if_neg ham, if_neg hap]
        simpa using hv
  · subst h
    obtain ⟨v, r2, hv⟩ := scanDigits_shape_some d r true hd hd0
    refine ⟨v, r2, ?_⟩
    have he := scanInt_cons_eval (minusChar :: [] ++ (d ++ r)) minusChar (d ++ r)
      (by simpa using hdw)
    rw [he, if_pos rfl]
    exact hv
  · subst h
    obtain ⟨v, r2, hv⟩ := scanDigits_shape_some d r false hd hd0
    refine ⟨v, r2, ?_⟩
    have he := scanInt_cons_eval (plusChar :: [] ++ (d ++ r)) plusChar (d ++ r)
      (by simpa using hdw)
    rw [he, if_neg (by decide), if_pos rfl]
    exact hv

lemma expectChars_append (p : List Char) : ∀ l, expectChars p (p ++ l) = some l := by
  induction p with
  | nil => intro l; rfl
  | cons c cs ih => intro l; simp [expectChars, ih l]

lemma expectChars_some (p : List Char) :
    ∀ l r, expectChars p l = some r → l = p ++ r := by
  induction p with
  | nil =>
      intro l r h
      simp [expectChars] at h
      simp [h]
  | cons c cs ih =>
      intro l r h
      cases l with
      | nil => exact absurd h (by simp [expectChars])
      | cons x xs =>
          by_cases hx : x = c
          · rw [expectChars, if_pos hx] at h
            rw [hx, List.cons_append, ih xs r h]
          · rw [expectChars, if_neg hx] at h
            exact absurd h (by simp)

/-! ## What the status-line scan accepts

`statusLineShape` is a declarative description, written from the
`sscanf` semantics, of the byte strings on which all three `%d`
conversions of `"HTTP/%d.%d %n%d"` succeed: the literal `HTTP/`, then
optional white space, an optional sign and a non-empty digit run (the
major version), a literal dot, the same for the minor version, then
white space and/or a sign (needed to stop the minor-version digit run)
and a non-empty digit run for the status, then anything at all. -/

def statusLineShape (resp : List Char) : Prop :=
  ∃ w1 g1 d1 w2 g2 d2 w3 g3 d3 rest,
    resp = sHTTPslash ++ (w1 ++ (g1 ++ (d1 ++ dotChar ::
      (w2 ++ (g2 ++ (d2 ++ (w3 ++ (g3 ++ (d3 ++ rest))))))))) ∧
    allWs w1 ∧ signOpt g1 ∧ allDigits d1 ∧ d1 ≠ [] ∧
    allWs w2 ∧ signOpt g2 ∧ allDigits d2 ∧ d2 ≠ [] ∧
    allWs w3 ∧ signOpt g3 ∧ allDigits d3 ∧ d3 ≠ [] ∧
    (w3 ≠ [] ∨ g3 ≠ [])

lemma parse_some_shape (resp : List Char) (out : Int × Int × Nat × Int)
    (h : parse_status_line resp = some out) : statusLineShape resp := by
  unfold parse_status_line at h
  cases he : expectChars sHTTPslash resp with
  | none => rw [he] at h; simp at h
  | some l1 =>
      have hresp : resp = sHTTPslash ++ l1 := expectChars_some sHTTPslash resp l1 he
      simp only [he] at h
      cases h1 : scanInt l1 with
      | none => rw [h1] at h; simp at h
      | some p1 =>
          obtain ⟨maj, l2⟩ := p1
          simp only [h1] at h
          cases h2 : expectChars (dotChar :: []) l2 with
          | none => rw [h2] at h; simp at h
          | some l3 =>
              have hl2 : l2 = dotChar :: l3 := by
                have h3 := expectChars_some (dotChar :: []) l2 l3 h2
                simpa using h3
              simp only [h2] at h
              cases h3 : scanInt l3 with
              | none => rw [h3] at h; simp at h
              | some p2 =>
                  obtain ⟨mn, l4⟩ := p2
                  simp only [h3] at h
                  cases h4 : scanInt (l4.dropWhile is_space) with
                  | none => rw [h4] at h; simp at h
                  | some p3 =>
                      obtain ⟨st, r3⟩ := p3
                      obtain ⟨w1, g1, d1, he1, hw1, hg1, hd1, hn1, _⟩ :=
                        scanInt_some_decomp l1 maj l2 h1
                      obtain ⟨w2, g2, d2, he2, hw2, hg2, hd2, hn2, hr2⟩ :=
                        scanInt_some_decomp l3 mn l4 h3
                      obtain ⟨w3b, g3, d3, he3, hw3b, hg3, hd3, hn3, _⟩ :=
                        scanInt_some_decomp (l4.dropWhile is_space) st r3 h4
                      have hw3bnil : w3b = [] := by
                        cases w3b with
                        | nil => rfl
                        | cons a as =>
                            have ha : is_space a = true := hw3b a (List.mem_cons_self a as)
                            have hb : is_space a = false := by
                              refine head_dropWhile_not is_space l4 a ?_
                              rw [he3]
                              simp
                            rw [hb] at ha
                            exact absurd ha (by simp)
                      subst hw3bnil
                      simp only [List.nil_append] at he3
                      refine ⟨w1, g1, d1, w2, g2, d2,
                        l4.takeWhile is_space, g3, d3, r3, ?_,
                        hw1, hg1, hd1, hn1, hw2, hg2, hd2, hn2, ?_, hg3, hd3, hn3, ?_⟩
                      · have hl4 : l4 = l4.takeWhile is_space ++ (g3 ++ (d3 ++ r3)) := by
                          nth_rewrite 1 [(List.takeWhile_append_dropWhile is_space l4).symm]
                          rw [he3]
                        rw [hresp, he1, hl2, he2]
                        conv_lhs => rw [hl4]
                      · intro c hc
                        exact List.mem_takeWhile_imp hc
                      · by_cases hz : l4.takeWhile is_space = []
                        · right
                          intro hg3nil
                          have hl5 : l4.dropWhile is_space = l4 := by
                            nth_rewrite 2 [(List.takeWhile_append_dropWhile is_space l4).symm]
                            rw [hz]
                            simp
                          rw [hl5, hg3nil] at he3
                          simp at he3
                          cases d3 with
                          | nil => exact hn3 rfl
                          | cons a as =>
                              have ha : is_digit a = true := hd3 a (List.mem_cons_self a as)
                              have hb : is_digit a = false := hr2 a (by rw [he3]; simp)
                              rw [hb] at ha
                              exact absurd ha (by simp)
                        · left
                          exact hz

lemma shape_parse_some (resp : List Char) (hs : statusLineShape resp) :
    ∃ out, parse_status_line resp = some out := by
  obtain ⟨w1, g1, d1, w2, g2, d2, w3, g3, d3, rest, heq, hw1, hg1, hd1, hn1,
    hw2, hg2, hd2, hn2, hw3, hg3, hd3, hn3, hne⟩ := hs
  have hr1 : headNotDigit (dotChar ::
      (w2 ++ (g2 ++ (d2 ++ (w3 ++ (g3 ++ (d3 ++ rest))))))) := by
    intro c hc
    simp at hc
    rw [← hc]
    decide
  obtain ⟨v1, hs1⟩ := scanInt_shape w1 g1 d1 _ hw1 hg1 hd1 hn1 hr1
  have hrT : headNotDigit (w3 ++ (g3 ++ (d3 ++ rest))) := by
    cases w3 with
    | cons a as =>
        intro c hc
        simp at hc
        rw [← hc]
        exact is_space_not_digit a (hw3 a (List.mem_cons_self a as))
    | nil =>
        rcases hne with hcon | hcon
        · exact absurd rfl hcon
        · rcases hg3 with h0 | h0 | h0
          · exact absurd h0 hcon
          · subst h0
            intro c hc
            simp at hc
            rw [← hc]
            decide
          · subst h0
            intro c hc
            simp at hc
            rw [← hc]
            decide
  obtain ⟨v2, hs2⟩ := scanInt_shape w2 g2 d2 _ hw2 hg2 hd2 hn2 hrT
  have hl5 : (w3 ++ (g3 ++ (d3 ++ rest))).dropWhile is_space = g3 ++ (d3 ++ rest) := by
    rw [dropWhile_append_all is_space w3 _ hw3]
    exact dropWhile_self_of_head is_space _ (head_not_space_of_shape g3 d3 rest hg3 hd3 hn3)
  obtain ⟨v3, r3, hs3⟩ := scanInt_shape_some g3 d3 rest hg3 hd3 hn3
  have hdot : expectChars (dotChar :: []) (dotChar ::
      (w2 ++ (g2 ++ (d2 ++ (w3 ++ (g3 ++ (d3 ++ rest))))))) =
      some (w2 ++ (g2 ++ (d2 ++ (w3 ++ (g3 ++ (d3 ++ rest)))))) := by
    simp [expectChars]
  refine ⟨(v1, v2, resp.length - (g3 ++ (d3 ++ rest)).length, v3), ?_⟩
  unfold parse_status_line
  rw [heq, expectChars_append]
  simp only [hs1, hdot, hs2, hl5, hs3]

/-! ## Decision and trace lemmas -/

lemma not_2xx_407 : ¬ (200 ≤ (407 : Int) ∧ (407 : Int) < 300) := by omega

lemma decide_status_407_flag_false (resp : List Char) (pos : Nat) (close : Bool)
    (st : ConnState) (itr : Bool) (h : st.try_auth_from_conf = false) :
    (decide_status 407 resp pos close st itr).1 ≠ RoundOutcome.retry ∧
    (decide_status 407 resp pos close st itr).2 = st := by
  cases close <;> cases itr <;> simp [decide_status, not_2xx_407, h]

lemma run_rounds407_no_retry :
    ∀ (evs : List Event407) (st : ConnState), st.try_auth_from_conf = false →
      countRetries (run_rounds407 st evs) = 0 := by
  intro evs
  induction evs with
  | nil => intro st h; rfl
  | cons e es ih =>
      intro st h
      obtain ⟨hne, hst⟩ := decide_status_407_flag_false [] 0 e.close st e.has_itr h
      have hb : ((decide_status 407 [] 0 e.close st e.has_itr).1 ==
          RoundOutcome.retry) = false := by
        simpa using hne
      simp only [run_rounds407, countRetries, List.filter_cons, hb]
      rw [hst]
      simpa [countRetries] using ih st h

lemma run_rounds407_le_one :
    ∀ (evs : List Event407) (st : ConnState),
      countRetries (run_rounds407 st evs) ≤ 1 := by
  intro evs
  induction evs with
  | nil => intro st; simp [run_rounds407, countRetries]
  | cons e es ih =>
      intro st
      by_cases h : st.try_auth_from_conf = false
      · have h0 := run_rounds407_no_retry (e :: es) st h
        omega
      · have h2 : st.try_auth_from_conf = true := by simpa using h
        by_cases hc : e.close = true
        · have hd : decide_status 407 [] 0 e.close st e.has_itr =
              (.fatalError msgClosedAfterAuth, st) := by
            simp [decide_status, not_2xx_407, hc]
          have hb : ((RoundOutcome.fatalError msgClosedAfterAuth) ==
              RoundOutcome.retry) = false := by
            simp
          simp only [run_rounds407, hd, countRetries, List.filter_cons, hb]
          simpa [countRetries] using ih st
        · have hc2 : e.close = false := by simpa using hc
          have hd : decide_status 407 [] 0 e.close st e.has_itr =
              (.retry, { st with try_auth_from_conf := false }) := by
            simp [decide_status, not_2xx_407, hc2, h2]
          have h0 := run_rounds407_no_retry es { st with try_auth_from_conf := false } rfl
          simp only [run_rounds407, hd]
          simp only [countRetries] at h0 ⊢
          simp [List.filter_cons, h0]

lemma emit_request_blank_end (st : ConnState) (dest : List Char) (port : Nat) :
    List.IsSuffix (crlf ++ crlf) (emit_request st dest port).1 := by
  unfold emit_request
  by_cases h1 : st.tried_no_auth = true
  · rw [if_pos h1]
    by_cases h2 : st.username.length ≠ 0 ∨ st.password.length ≠ 0
    · rw [if_pos h2]
      refine ⟨request_head dest port ++ (sProxyAuthBasic ++
        base64_encode ((st.username ++ colonChar :: st.password).map Char.toNat)), ?_⟩
      simp [auth_line, List.append_assoc]
    · rw [if_neg h2]
      refine ⟨sCONNECT ++ dest ++ colonChar :: natToChars port ++ sHTTP11 ++ crlf ++
        sHost ++ dest ++ colonChar :: natToChars port, ?_⟩
      simp [request_head, List.append_assoc]
  · rw [if_neg h1]
    refine ⟨sCONNECT ++ dest ++ colonChar :: natToChars port ++ sHTTP11 ++ crlf ++
      sHost ++ dest ++ colonChar :: natToChars port, ?_⟩
    simp [request_head, List.append_assoc]

lemma strtoumax10_cons_eval (l : List Char) (c : Char) (cs : List Char)
    (h : l.dropWhile is_space = c :: cs) :
    strtoumax10 l = if c = minusChar then strtoRest cs true
                    else if c = plusChar then strtoRest cs false
                    else strtoRest (c :: cs) false := by
  unfold strtoumax10
  rw [h]

/-! ## Claim theorems -/

/-- Claim C1.  The claim says every invocation of the line reader
terminates, returning a completed line or a suspension, and that a
zero-byte re-invocation suspends again without mutating state.  The
suspension part holds (first conjunct: on empty input `read_line`
returns `false` leaving the accumulated output untouched), but the
termination part is false: with header folding, once the accumulated
line ends in a newline and the next available byte is a space, the
loop at src/proxy/http.c lines 14-34 neither consumes nor appends that
byte (both `put_byte` and `bufchain_consume` sit in the `else` branch),
so it re-fetches the same byte forever — `none` for every fuel bound
(second conjunct). -/
theorem c1_read_line_diverges_on_fold :
    (∀ (fuel : Nat) (out : List Char) (hdr : Bool),
        read_line (fuel + 1) [] out hdr = some (false, [], out)) ∧
    (∀ fuel : Nat,
        read_line fuel (spaceChar :: []) (Char.ofNat 88 :: nlChar :: []) true = none) := by
  constructor
  · intro fuel out hdr
    rfl
  · intro fuel
    have h := readLineLoop_fold_stuck spaceChar (Or.inl rfl) fuel [] (Char.ofNat 88 :: [])
    simp only [List.cons_append, List.nil_append] at h
    unfold read_line
    rw [h]

/-- Claim C2.  The claim says that in header-folding mode, when the
accumulated line ends in a newline and the next input byte is a space
or tab, `read_line` consumes and appends that byte and continues.  In
this code the fold byte is never consumed: the loop spins without
progress, returning neither a completed line nor a suspension for any
fuel bound, for either fold byte, any accumulated prefix and any
pending input. -/
theorem c2_fold_byte_never_consumed :
    ∀ (fuel : Nat) (out rest : List Char),
      readLineLoop fuel (spaceChar :: rest) (out ++ nlChar :: []) true = none ∧
      readLineLoop fuel (tabChar :: rest) (out ++ nlChar :: []) true = none := by
  intro fuel out rest
  exact ⟨readLineLoop_fold_stuck spaceChar (Or.inl rfl) fuel rest out,
         readLineLoop_fold_stuck tabChar (Or.inr rfl) fuel rest out⟩

/-- Claim C3.  The first CONNECT request never carries a
`Proxy-Authorization` header even when credentials are preconfigured
(first conjunct: with `tried_no_auth` still false the emitted bytes are
exactly the CONNECT/Host head plus the blank line, and the flag flips);
on any later request with at least one non-empty credential the header
line `Proxy-Authorization: Basic <base64(username:password)>\r\n` is
emitted between the head and the blank line (second conjunct); and
every request ends with a blank CRLF line (third conjunct). -/
theorem c3_first_request_no_credentials :
    (∀ (st : ConnState) (dest : List Char) (port : Nat),
        st.tried_no_auth = false →
        emit_request st dest port =
          (request_head dest port ++ crlf, { st with tried_no_auth := true })) ∧
    (∀ (st : ConnState) (dest : List Char) (port : Nat),
        st.tried_no_auth = true →
        (st.username.length ≠ 0 ∨ st.password.length ≠ 0) →
        (emit_request st dest port).1 =
          request_head dest port ++
            (sProxyAuthBasic ++
             base64_encode ((st.username ++ colonChar :: st.password).map Char.toNat) ++
             crlf) ++ crlf) ∧
    (∀ (st : ConnState) (dest : List Char) (port : Nat),
        List.IsSuffix (crlf ++ crlf) (emit_request st dest port).1) := by
  refine ⟨?_, ?_, ?_⟩
  · intro st dest port h
    simp [emit_request, h]
  · intro st dest port h1 h2
    unfold emit_request
    rw [if_pos h1, if_pos h2]
    simp [auth_line, List.append_assoc]
  · intro st dest port
    exact emit_request_blank_end st dest port

/-- Claim C3 witness: concrete first and second requests with
credentials `u`/`p`. -/
theorem c3_first_request_no_credentials_witness :
    emit_request (ConnState.mk false true (("u").toList) (("p").toList))
        (("proxy").toList) 8080 =
      (request_head (("proxy").toList) 8080 ++ crlf,
       ConnState.mk true true (("u").toList) (("p").toList)) ∧
    (emit_request (ConnState.mk true true (("u").toList) (("p").toList))
        (("proxy").toList) 8080).1 =
      request_head (("proxy").toList) 8080 ++
        (sProxyAuthBasic ++
         base64_encode (((("u").toList) ++ colonChar :: (("p").toList)).map Char.toNat) ++
         crlf) ++ crlf :=
  ⟨c3_first_request_no_credentials.1 (ConnState.mk false true (("u").toList) (("p").toList))
      (("proxy").toList) 8080 rfl,
   c3_first_request_no_credentials.2.1 (ConnState.mk true true (("u").toList) (("p").toList))
      (("proxy").toList) 8080 rfl (Or.inl (by decide))⟩

/-- Claim C4.  On a 407 the checks run in source order
(src/proxy/http.c lines 301-346): a true close-flag is fatal with the
connection-closed message whatever the other inputs; otherwise a
pending `try_auth_from_conf` yields exactly one automatic retry and
clears the flag; otherwise no interactive capability is fatal with the
auth-unavailable message; otherwise a prompt is issued whose username
field appears only when the username is empty and whose password field
is always present and masked (`echo = false`); and across any
negotiation trace at most one automatic retry ever occurs. -/
theorem c4_auth_decision_order :
    (∀ (resp : List Char) (pos : Nat) (st : ConnState) (itr : Bool),
        decide_status 407 resp pos true st itr =
          (.fatalError msgClosedAfterAuth, st)) ∧
    (∀ (resp : List Char) (pos : Nat) (tna : Bool) (u p : List Char) (itr : Bool),
        decide_status 407 resp pos false (ConnState.mk tna true u p) itr =
          (.retry, ConnState.mk tna false u p)) ∧
    (∀ (resp : List Char) (pos : Nat) (tna : Bool) (u p : List Char),
        decide_status 407 resp pos false (ConnState.mk tna false u p) false =
          (.fatalError msgNoAuth, ConnState.mk tna false u p)) ∧
    (∀ (resp : List Char) (pos : Nat) (tna : Bool) (u p : List Char),
        decide_status 407 resp pos false (ConnState.mk tna false u p) true =
          (.prompt (build_prompts u), ConnState.mk tna false u p)) ∧
    (build_prompts [] =
      (Prompt.mk sPromptUser true) :: (Prompt.mk sPromptPass false) :: []) ∧
    (∀ (c : Char) (u : List Char),
        build_prompts (c :: u) = (Prompt.mk sPromptPass false) :: []) ∧
    (∀ (st : ConnState) (evs : List Event407),
        countRetries (run_rounds407 st evs) ≤ 1) := by
  refine ⟨?_, ?_, ?_, ?_, ?_, ?_, ?_⟩
  · intro resp pos st itr
    simp [decide_status, not_2xx_407]
  · intro resp pos tna u p itr
    simp [decide_status, not_2xx_407]
  · intro resp pos tna u p
    simp [decide_status, not_2xx_407]
  · intro resp pos tna u p
    simp [decide_status, not_2xx_407]
  · rfl
  · intro c u
    simp [build_prompts]
  · intro st evs
    exact run_rounds407_le_one evs st

/-- Claim C5.  The claim says the close-flag defaults to true when the
protocol version predates 1.1, so an HTTP/1.0 407 with no Connection
header is fatal.  The code disagrees: the guard at src/proxy/http.c
line 235 reads `maj_ver < 1 && (maj_ver == 1 && min_ver < 1)`, which
requires `maj_ver < 1` and `maj_ver == 1` at once and is therefore
unsatisfiable (first conjunct: the computed default is false for every
version pair, including 1.0).  Consequently the HTTP/1.0 407 scenario
with untried configured credentials performs the automatic retry
instead of failing (second conjunct). -/
theorem c5_pre11_close_default_unreachable :
    (∀ maj_ver min_ver : Int, connection_close_default maj_ver min_ver = false) ∧
    run_round (init_state (("u").toList) (("p").toList)) false
        (("HTTP/1.0 407 Proxy Authentication Required").toList) [] =
      (.retry, ConnState.mk false false (("u").toList) (("p").toList)) := by
  constructor
  · intro maj_ver min_ver
    unfold connection_close_default
    rw [if_neg]
    omega
  · decide

/-- Claim C6.  For a `Proxy-Authenticate` header line, the scheme token
is compared case-insensitively with `Basic`: on a match the header
changes nothing and processing continues; on any other scheme the
result is the fatal unsupported-auth-scheme error, and the header loop
stops at once with that error, processing no further header lines and
offering no retry. -/
theorem c6_proxy_authenticate_scheme_dispatch :
    ∀ (st : HdrState) (scheme : List Char) (more : List (List Char)),
      scheme ≠ [] → (∀ c ∈ scheme, tokenChar c = true) →
      process_header st (sProxyAuthenticate ++ colonChar :: spaceChar :: scheme) =
        (if stricmpEq scheme sBasic then .ok st else .unsupportedAuth scheme) ∧
      (stricmpEq scheme sBasic = false →
        process_headers st
            ((sProxyAuthenticate ++ colonChar :: spaceChar :: scheme) :: more) =
          .error (msgUnsupported scheme)) := by
  intro st scheme more h1 h2
  have hph := process_header_proxy_auth st scheme h1 h2
  refine ⟨hph, ?_⟩
  intro hb
  simp [process_headers, hph, hb]

/-- Claim C6 witness: scheme `Digest` is fatal, further header lines
unprocessed; scheme `basic` (case-insensitive match) is accepted. -/
theorem c6_proxy_authenticate_scheme_dispatch_witness :
    process_header (HdrState.mk 0 false)
        (sProxyAuthenticate ++ colonChar :: spaceChar :: (("Digest").toList)) =
      .unsupportedAuth (("Digest").toList) ∧
    process_headers (HdrState.mk 0 false)
        ((sProxyAuthenticate ++ colonChar :: spaceChar :: (("Digest").toList)) ::
          ((("Connection: close").toList) :: [])) =
      .error (msgUnsupported (("Digest").toList)) ∧
    process_header (HdrState.mk 0 false)
        (sProxyAuthenticate ++ colonChar :: spaceChar :: (("basic").toList)) =
      .ok (HdrState.mk 0 false) := by
  have h := c6_proxy_authenticate_scheme_dispatch (HdrState.mk 0 false)
    (("Digest").toList) ((("Connection: close").toList) :: []) (by decide) (by decide)
  have h2 := c6_proxy_authenticate_scheme_dispatch (HdrState.mk 0 false)
    (("basic").toList) [] (by decide) (by decide)
  refine ⟨?_, h.2 (by decide), ?_⟩
  · rw [h.1]
    decide
  · rw [h2.1]
    decide

/-- Claim C7.  After the response of a round trip is consumed, a
status in 200-299 is the success outcome, and any status outside
200-299 other than 407 is the fatal permanent-failure error whose
message is `HTTP response ` followed by the response line from
`http_status_pos` on — the suffix starting at the status code itself,
which carries the reason-phrase text following the code. -/
theorem c7_status_dispatch :
    (∀ (s : Int) (resp : List Char) (pos : Nat) (close : Bool)
        (st : ConnState) (itr : Bool),
        200 ≤ s → s < 300 →
        decide_status s resp pos close st itr = (.success, st)) ∧
    (∀ (s : Int) (resp : List Char) (pos : Nat) (close : Bool)
        (st : ConnState) (itr : Bool),
        ¬ (200 ≤ s ∧ s < 300) → s ≠ 407 →
        decide_status s resp pos close st itr =
          (.fatalError (msgHTTPresp ++ resp.drop pos), st)) := by
  constructor
  · intro s resp pos close st itr h1 h2
    unfold decide_status
    rw [if_pos (And.intro h1 h2)]
  · intro s resp pos close st itr h1 h2
    unfold decide_status
    rw [if_neg h1, if_neg h2]

/-- Claim C7 witness: status 204 succeeds; status 503 is the permanent
failure carrying the from-the-status-code response text. -/
theorem c7_status_dispatch_witness :
    decide_status 204 [] 0 false (ConnState.mk false false [] []) false =
      (.success, ConnState.mk false false [] []) ∧
    decide_status 503 (("HTTP/1.1 503 Service Unavailable").toList) 9 false
        (ConnState.mk false false [] []) false =
      (.fatalError (msgHTTPresp ++
        ((("HTTP/1.1 503 Service Unavailable").toList).drop 9)),
       ConnState.mk false false [] []) :=
  ⟨c7_status_dispatch.1 204 [] 0 false (ConnState.mk false false [] []) false
      (by omega) (by omega),
   c7_status_dispatch.2 503 (("HTTP/1.1 503 Service Unavailable").toList) 9 false
      (ConnState.mk false false [] []) false (by omega) (by omega)⟩

/-- Claim C8 counterexample.  The claim says a response line is
accepted exactly when it matches `HTTP/<major>.<minor>` plus a
three-digit status followed by a reason phrase; but the line
`HTTP/1.1 99` — whose status has two digits and which has no reason
phrase at all — is accepted by the parse, with status 99. -/
theorem c8_counterexample_two_digit_status :
    parse_status_line (("HTTP/1.1 99").toList) = some (1, 1, 9, 99) ∧ (99 : Int) < 100 := by
  constructor
  · decide
  · omega

/-- Claim C8, amended.  Acceptance follows `sscanf("HTTP/%d.%d %n%d")`
semantics: the literal `HTTP/`, then for each of the three numbers
optional white space, an optional sign and a non-empty digit run (with
a dot literal between the first two), and anything after the status
digits — no three-digit requirement and no reason-phrase requirement
(first conjunct: acceptance is exactly `statusLineShape`).  Any line
the scan rejects makes the round trip fail with the fatal
malformed-response error (second conjunct). -/
theorem c8_amended_scanf_acceptance :
    (∀ resp : List Char,
        (∃ out, parse_status_line resp = some out) ↔ statusLineShape resp) ∧
    (∀ (st : ConnState) (itr : Bool) (resp : List Char) (hdrs : List (List Char)),
        parse_status_line resp = none →
        run_round st itr resp hdrs = (.fatalError msgMalformed, st)) := by
  constructor
  · intro resp
    constructor
    · rintro ⟨out, h⟩
      exact parse_some_shape resp out h
    · intro hs
      exact shape_parse_some resp hs
  · intro st itr resp hdrs h
    unfold run_round
    rw [h]

/-- Claim C8 witness: an unparsable line makes the round fatal with the
malformed-response message. -/
theorem c8_amended_scanf_acceptance_witness :
    run_round (ConnState.mk false false [] []) false (("garbage").toList) [] =
      (.fatalError msgMalformed, ConnState.mk false false [] []) :=
  c8_amended_scanf_acceptance.2 (ConnState.mk false false [] []) false
    (("garbage").toList) [] (by decide)

/-- Claim C9 counterexample.  The claim says every Content-Length token
that fails to parse as an unsigned base-10 integer stores length 0; but
the token `12x` is not an unsigned base-10 integer and stores 12
(`strtoumax` converts the longest leading digit run and ignores the
rest). -/
theorem c9_counterexample_trailing_junk :
    process_header (HdrState.mk 0 false) (("Content-Length: 12x").toList) =
      .ok (HdrState.mk 12 false) ∧ (12 : Nat) ≠ 0 := by
  constructor
  · decide
  · omega

/-- Claim C9, amended.  The token after the colon is handed to
`strtoumax(tok, NULL, 10)`: the longest leading digit run after an
optional sign is converted (saturating at `2 ^ 64 - 1`, negated modulo
`2 ^ 64` after a minus), trailing non-digits are ignored, and a token
with no leading digits stores 0; the Content-Length branch never
raises an error on any token. -/
theorem c9_amended_strtoumax_semantics :
    (∀ (st : HdrState) (v : List Char), v ≠ [] → (∀ c ∈ v, tokenChar c = true) →
        process_header st (sContentLength ++ colonChar :: spaceChar :: v) =
          .ok { st with content_length := strtoumax10 v }) ∧
    (∀ (ds rest : List Char), allDigits ds → ds ≠ [] → headNotDigit rest →
        strtoumax10 (ds ++ rest) = min (digitsToNat ds) (2 ^ 64 - 1)) ∧
    (strtoumax10 [] = 0) ∧
    (∀ (c : Char) (l : List Char), is_digit c = false → is_space c = false →
        ¬ (c = minusChar) → ¬ (c = plusChar) → strtoumax10 (c :: l) = 0) := by
  refine ⟨?_, ?_, rfl, ?_⟩
  · intro st v h1 h2
    exact process_header_content_length st v h1 h2
  · intro ds rest h1 h2 h3
    cases ds with
    | nil => exact absurd rfl h2
    | cons a as =>
        have ha : is_digit a = true := h1 a (List.mem_cons_self a as)
        have hds : ((a :: as) ++ rest).dropWhile is_space = a :: (as ++ rest) := by
          simp [List.dropWhile, is_digit_not_space a ha]
        rw [strtoumax10_cons_eval ((a :: as) ++ rest) a (as ++ rest) hds,
            if_neg (is_digit_ne_minus a ha), if_neg (is_digit_ne_plus a ha)]
        have htk : (a :: (as ++ rest)).takeWhile is_digit = a :: as := by
          rw [← List.cons_append, takeWhile_append_all is_digit (a :: as) rest h1,
              takeWhile_nil_of_head is_digit rest h3, List.append_nil]
        have hne : ((a :: (as ++ rest)).takeWhile is_digit).isEmpty = false := by
          rw [htk]
          rfl
        simp [strtoRest, htk, hne]
  · intro c l h1 h2 h3 h4
    have hd : (c :: l).dropWhile is_space = c :: l := by
      simp [List.dropWhile, h2]
    rw [strtoumax10_cons_eval (c :: l) c l hd, if_neg h3, if_neg h4]
    simp [strtoRest, List.takeWhile, h1]

/-- Claim C9 witness: token `12x` stores `strtoumax10 "12x" = 12`; digit
run `12` followed by `x` converts to 12. -/
theorem c9_amended_strtoumax_semantics_witness :
    process_header (HdrState.mk 7 true)
        (sContentLength ++ colonChar :: spaceChar :: (("12x").toList)) =
      .ok (HdrState.mk (strtoumax10 (("12x").toList)) true) ∧
    strtoumax10 ((("12").toList) ++ (("x").toList)) =
      min (digitsToNat (("12").toList)) (2 ^ 64 - 1) := by
  constructor
  · exact c9_amended_strtoumax_semantics.1 (HdrState.mk 7 true) (("12x").toList)
      (by decide) (by decide)
  · refine c9_amended_strtoumax_semantics.2.1 (("12").toList) (("x").toList)
      (by unfold allDigits; decide) (by decide) ?_
    intro c hc
    simp at hc
    rw [← hc]
    decide

/-- Claim C10.  With both configured credentials empty the pending
flag is never set: initialisation leaves it false (first conjunct), a
first 407 on a non-closing connection with the flag clear goes
straight to the fatal auth-unavailable error when no interactive
capability exists (second conjunct) or to the prompt path (third
conjunct), and no trace of such a negotiation ever performs an
automatic retry (fourth conjunct). -/
theorem c10_empty_credentials_skip_retry :
    ((init_state [] []).try_auth_from_conf = false) ∧
    (∀ (resp : List Char) (pos : Nat) (tna : Bool) (u p : List Char),
        decide_status 407 resp pos false (ConnState.mk tna false u p) false =
          (.fatalError msgNoAuth, ConnState.mk tna false u p)) ∧
    (∀ (resp : List Char) (pos : Nat) (tna : Bool) (u p : List Char),
        decide_status 407 resp pos false (ConnState.mk tna false u p) true =
          (.prompt (build_prompts u), ConnState.mk tna false u p)) ∧
    (∀ evs : List Event407,
        countRetries (run_rounds407 (init_state [] []) evs) = 0) := by
  refine ⟨rfl, ?_, ?_, ?_⟩
  · intro resp pos tna u p
    simp [decide_status, not_2xx_407]
  · intro resp pos tna u p
    simp [decide_status, not_2xx_407]
  · intro evs
    exact run_rounds407_no_retry evs (init_state [] []) rfl
